import Mathlib

/-!
Verification of the read-through state cache (`core/state/cached_reader.go`).

The `CachedReader` orchestration is translated directly from the Go source.
The `shards.StateCache` container it drives, and the backing store's `Walk`
primitive, are not part of the visible source; they are modelled from the
design document (trie-prefix index with deepest-match search, tri-state
entity maps keyed as the document describes).

Machine conventions: byte strings are `List Nat`; a nibble path is a list
of 4-bit values, one per element; fallible store operations return
`Except Err`; every run of a reader method also returns the updated cache
and the list of backing-store accesses it performed.
-/

/-- Byte strings (account addresses, hashed addresses, raw values). -/
abbrev Bytes := List Nat

/-- An account address. -/
abbrev Addr := Bytes

/-- A hashed address (the trie key form of an address). -/
abbrev Hash := Bytes

/-- A nibble path: each element is one 4-bit segment. -/
abbrev Nibbles := List Nat

/-- Decoded account record (`accounts.Account`): nonce, balance, storage
root, code hash, incarnation. -/
structure Account where
  nonce : Nat
  balance : Nat
  root : Hash
  codeHash : Hash
  incarnation : Nat
deriving DecidableEq

/-- Error taxonomy of the read path: a backing-store fault or a failure to
decode a stored record. -/
inductive Err where
  | storeErr
  | decodeErr
deriving DecidableEq

/-- One backing-store access performed by a reader method: a range scan of
the trie-node bucket, a range scan of the hashed-account bucket under a
nibble prefix, or a point lookup delegated to the underlying reader. -/
inductive StoreAccess where
  | walkTrie
  | walkAccounts (k : Nibbles)
  | getAccount (a : Addr)
  | getStorage (a : Addr) (inc : Nat) (key : Bytes)
  | getCode (a : Addr) (inc : Nat) (ch : Hash)
  | getIncarnation (a : Addr)
deriving DecidableEq

/-- Trie-node payload as decoded by `trie.UnmarshalTrieNodeTyped`: the three
summary flags plus the (informational) hash payload. -/
structure TrieNode where
  hasState : Bool
  hasTree : Bool
  hasHash : Bool
  hashes : Bytes
deriving DecidableEq

/-- Modelled from the spec: descriptor stored in the Trie Prefix Index of
`shards.StateCache` (absent from the visible source) — the three summary
flags plus the `loaded` flag meaning the subtree's accounts have been fully
materialized into the Account Cache. -/
structure TrieDesc where
  hasState : Bool
  hasTree : Bool
  hasHash : Bool
  loaded : Bool
deriving DecidableEq

/-- Association-list lookup: value of the first binding of the key. -/
def lookupA {κ ν : Type} [DecidableEq κ] : List (κ × ν) → κ → Option ν
  | [], _ => none
  | (k', v) :: rest, k => if k' = k then some v else lookupA rest k

/-- Association-list insert with overwrite semantics: the new binding
shadows any older binding of the same key. -/
def insertA {κ ν : Type} [DecidableEq κ] (m : List (κ × ν)) (k : κ) (v : ν) :
    List (κ × ν) :=
  (k, v) :: m

/-- Modelled from the spec: the state of a `shards.StateCache` instance
(absent from the visible source) — the Trie Prefix Index plus the four
tri-state entity maps.  The account map is keyed by hashed address, as the
design document specifies for the trie-indexed read path; an inner `none`
is the explicit Absent marker, a missing binding means unknown.  A storage
binding holds the raw value, the empty string standing for Absent. -/
structure StateCache where
  trieIndex : List (Nibbles × TrieDesc)
  accounts : List (Hash × Option Account)
  storage : List ((Addr × Nat × Bytes) × Bytes)
  code : List ((Addr × Nat) × Bytes)
  deleted : List (Addr × Account)
deriving DecidableEq

/-- External collaborators consumed by the reader: the hashing primitive,
the account decoder (`DecodeForStorage`; `none` models a decode fault) and
the well-known hash of the empty code string. -/
structure Env where
  hash : Addr → Hash
  decodeAccount : Bytes → Option Account
  emptyCodeHash : Hash

/-- Value delivered by a range scan for one key: either the stored bytes,
or a fault of the store's iterator when this position is reached. -/
inductive StoreVal where
  | good (v : Bytes)
  | corrupt
deriving DecidableEq

/-- One entry of the trie-node bucket as delivered by a range scan: a
decoded node at a nibble-path key, or an iterator fault at this position. -/
inductive TrieEntry where
  | good (k : Nibbles) (n : TrieNode)
  | corrupt
deriving DecidableEq

/-- The Backing Store as seen by the reader: the two scanned buckets (in
scan order) and the point-lookup interface of the underlying
`StateReader`. -/
structure Store where
  trieBucket : List TrieEntry
  accountBucket : List (Hash × StoreVal)
  readAccountPoint : Addr → Except Err (Option Account)
  readStoragePoint : Addr → Nat → Bytes → Except Err Bytes
  readCodePoint : Addr → Nat → Hash → Except Err Bytes
  readIncarnationPoint : Addr → Except Err Nat

/-- `DecompressNibbles`: each byte yields its high then its low nibble. -/
def decompressNibbles (bs : Bytes) : Nibbles :=
  bs.flatMap (fun b => [b / 16 % 16, b % 16])

/-- `CompressNibbles`: consecutive nibble pairs are packed into bytes. -/
def compressNibbles : List Nat → List Nat
  | hi :: lo :: rest => (hi * 16 + lo) :: compressNibbles rest
  | _ => []

/-- The scan start key built in `ReadAccountData` step 7: the matched
nibble prefix, zero-padded to even length, compressed to bytes. -/
def compressPadded (k : Nibbles) : Bytes :=
  compressNibbles (if k.length % 2 = 1 then k ++ [0] else k)

/-- The eight bits of a byte, most significant first. -/
def byteBits (b : Nat) : List Bool :=
  [decide (b / 128 % 2 = 1), decide (b / 64 % 2 = 1), decide (b / 32 % 2 = 1),
   decide (b / 16 % 2 = 1), decide (b / 8 % 2 = 1), decide (b / 4 % 2 = 1),
   decide (b / 2 % 2 = 1), decide (b % 2 = 1)]

/-- A byte string as a bit sequence, most significant bit first. -/
def bitsOfBytes (bs : Bytes) : List Bool :=
  bs.flatMap byteBits

/-- `Walk`'s fixed-bits restriction: the two keys agree on their first `n`
bits (a key too short to have `n` bits only qualifies against an equally
short key). -/
def sharesPrefixBits (n : Nat) (a b : Bytes) : Bool :=
  decide ((bitsOfBytes a).take n = (bitsOfBytes b).take n)

/-- Modelled from the spec: `StateCache.GetAccount` — tri-state lookup of
an address in the Account Cache (keyed by its hashed address). -/
def getAccount (env : Env) (c : StateCache) (addr : Addr) : Option (Option Account) :=
  lookupA c.accounts (env.hash addr)

/-- Modelled from the spec: `StateCache.SetAccountRead` — record an
address as Present with the given account. -/
def setAccountRead (env : Env) (c : StateCache) (addr : Addr) (a : Account) : StateCache :=
  { c with accounts := insertA c.accounts (env.hash addr) (some a) }

/-- Modelled from the spec: `StateCache.SetAccountAbsent` — record an
address as confirmed Absent. -/
def setAccountAbsent (env : Env) (c : StateCache) (addr : Addr) : StateCache :=
  { c with accounts := insertA c.accounts (env.hash addr) none }

/-- Modelled from the spec: `StateCache.GetAccountByHashedAddress` —
tri-state lookup keyed directly by hashed address, used by the warming
scan where only the hash is known. -/
def getAccountByHashedAddress (c : StateCache) (h : Hash) : Option (Option Account) :=
  lookupA c.accounts h

/-- Modelled from the spec: `StateCache.DeprecatedSetAccountRead` — record
a hashed address as Present with the given account. -/
def deprecatedSetAccountRead (c : StateCache) (h : Hash) (a : Account) : StateCache :=
  { c with accounts := insertA c.accounts h (some a) }

/-- One step of the deepest-prefix search: keep the longer of the current
best candidate and the next index entry, among entries whose key is a
prefix of `P`; of two candidates with the same key the earlier binding
(the most recent insertion) wins. -/
def deeperOf (P : Nibbles) (best : Option (Nibbles × TrieDesc)) (e : Nibbles × TrieDesc) :
    Option (Nibbles × TrieDesc) :=
  if e.1.isPrefixOf P then
    match best with
    | none => some e
    | some b => if b.1.length < e.1.length then some e else best
  else best

/-- Modelled from the spec: `StateCache.FindDeepestAccountTrie` — the
longest stored prefix of the nibble path `P` in the Trie Prefix Index,
with its descriptor; `none` is the `trieMiss` answer. -/
def findDeepestAccountTrie (idx : List (Nibbles × TrieDesc)) (P : Nibbles) :
    Option (Nibbles × TrieDesc) :=
  idx.foldl (deeperOf P) none

/-- Modelled from the spec: `StateCache.SetAccountTrieRead` — insert or
overwrite the descriptor at a nibble-path key from a scanned trie node;
the fresh descriptor is not `loaded`. -/
def setAccountTrieRead (c : StateCache) (k : Nibbles) (n : TrieNode) : StateCache :=
  let d : TrieDesc := ⟨n.hasState, n.hasTree, n.hasHash, false⟩
  { c with trieIndex := insertA c.trieIndex k d }

/-- The index after `MarkLoaded`: every binding of the marked key gets
`loaded := true`; all other bindings are untouched. -/
def markLoadedIdx (idx : List (Nibbles × TrieDesc)) (K : Nibbles) :
    List (Nibbles × TrieDesc) :=
  idx.map (fun e => if e.1 = K then (e.1, { e.2 with loaded := true }) else e)

/-- Modelled from the spec: `StateCache.MarkAccountTrieAsLoaded` — set the
`loaded` flag on the descriptor at the given prefix. -/
def markAccountTrieAsLoaded (c : StateCache) (K : Nibbles) : StateCache :=
  { c with trieIndex := markLoadedIdx c.trieIndex K }

/-- Modelled from the spec: `StateCache.GetStorage` — lookup of a storage
slot scoped by (address, incarnation, key). -/
def getStorage (c : StateCache) (addr : Addr) (inc : Nat) (key : Bytes) : Option Bytes :=
  lookupA c.storage (addr, inc, key)

/-- Modelled from the spec: `StateCache.SetStorageRead`. -/
def setStorageRead (c : StateCache) (addr : Addr) (inc : Nat) (key : Bytes) (v : Bytes) :
    StateCache :=
  { c with storage := insertA c.storage (addr, inc, key) v }

/-- Modelled from the spec: `StateCache.SetStorageAbsent` — a zero-length
value is the Absent marker for storage. -/
def setStorageAbsent (c : StateCache) (addr : Addr) (inc : Nat) (key : Bytes) : StateCache :=
  { c with storage := insertA c.storage (addr, inc, key) [] }

/-- Modelled from the spec: `StateCache.GetCode`. -/
def getCode (c : StateCache) (addr : Addr) (inc : Nat) : Option Bytes :=
  lookupA c.code (addr, inc)

/-- Modelled from the spec: `StateCache.SetCodeRead`. -/
def setCodeRead (c : StateCache) (addr : Addr) (inc : Nat) (v : Bytes) : StateCache :=
  { c with code := insertA c.code (addr, inc) v }

/-- Modelled from the spec: `StateCache.GetDeletedAccount`. -/
def getDeletedAccount (c : StateCache) (addr : Addr) : Option Account :=
  lookupA c.deleted addr

/-- The process-wide toggle `ReadStateByPrefixes` of `cached_reader.go`. -/
def ReadStateByPrefixes : Bool := true

/-- Result of a reader method: the answer (or propagated error), the cache
as left behind (mutations before a failure persist), and the list of
backing-store accesses performed. -/
abbrev ReadOut (α : Type) := Except Err α × StateCache × List StoreAccess

/-- Prepend earlier accesses to a later stage's output. -/
def prependLog {α : Type} (lg : List StoreAccess) (r : ReadOut α) : ReadOut α :=
  (r.1, r.2.1, lg ++ r.2.2)

/-- The trie-node bucket scan of `ReadAccountData` (lines 59-65): every
delivered node is inserted into the Trie Prefix Index via
`SetAccountTrieRead`; an iterator fault aborts the scan, keeping the
insertions made so far. -/
def walkAccountTrie : List TrieEntry → StateCache → StateCache × Option Err
  | [], c => (c, none)
  | TrieEntry.corrupt :: _, c => (c, some Err.storeErr)
  | TrieEntry.good k n :: rest, c => walkAccountTrie rest (setAccountTrieRead c k n)

/-- Steps 3-4 of `ReadAccountData`: the deepest-prefix search, and on
`trieMiss` the single bounded scan of the trie-node bucket warming the
Trie Prefix Index (the search is then repeated by the caller, once). -/
def trieWarmPhase (st : Store) (c : StateCache) (P : Nibbles) :
    StateCache × Option Err × List StoreAccess :=
  match findDeepestAccountTrie c.trieIndex P with
  | some _ => (c, none, [])
  | none =>
    match walkAccountTrie st.trieBucket c with
    | (c', e) => (c', e, [StoreAccess.walkTrie])

/-- The direct point-lookup fallback of `ReadAccountData` (lines 69-79,
also the `!ReadStateByPrefixes` branch at lines 35-46): one underlying
read, cached as Present or Absent. -/
def pointFallback (env : Env) (st : Store) (c : StateCache) (addr : Addr) :
    ReadOut (Option Account) :=
  match st.readAccountPoint addr with
  | Except.error e => (Except.error e, c, [StoreAccess.getAccount addr])
  | Except.ok none => (Except.ok none, setAccountAbsent env c addr, [StoreAccess.getAccount addr])
  | Except.ok (some a) =>
      (Except.ok (some a), setAccountRead env c addr a, [StoreAccess.getAccount addr])

/-- The entries delivered by the hashed-account bucket scan of step 7: the
bucket restricted to keys sharing the first `4·|K|` bits with the padded,
compressed start key built from the matched prefix `K` (lines 85-90). -/
def accountWalkEntries (st : Store) (K : Nibbles) : List (Hash × StoreVal) :=
  st.accountBucket.filter (fun e => sharesPrefixBits (K.length * 4) (compressPadded K) e.1)

/-- The visit callback loop of the warming scan (lines 93-111): an entry
already known to the cache is skipped (but still checked against the
target), a fresh entry is decoded and recorded Present by hashed address;
the callback answers `continue = true` in both cases, so the scan runs to
the end of the range; a decode failure or iterator fault stops it with the
insertions made so far kept. -/
def walkHashedAccounts (env : Env) (hashed : Hash) :
    List (Hash × StoreVal) → StateCache → Bool → Option Account →
    Except Err (Bool × Option Account) × StateCache
  | [], c, found, a => (Except.ok (found, a), c)
  | (_, StoreVal.corrupt) :: _, c, _, _ => (Except.error Err.storeErr, c)
  | (k, StoreVal.good v) :: rest, c, found, a =>
    match getAccountByHashedAddress c k with
    | some acc =>
        walkHashedAccounts env hashed rest c
          (if k = hashed then true else found)
          (if k = hashed then acc else a)
    | none =>
        match env.decodeAccount v with
        | none => (Except.error Err.decodeErr, c)
        | some acc =>
            walkHashedAccounts env hashed rest (deprecatedSetAccountRead c k acc)
              (if k = hashed then true else found)
              (if k = hashed then some acc else a)

/-- Steps 6-7 of `ReadAccountData` (lines 81-119), after a deepest-prefix
match `(K, d)`: the authoritative-absence branch, or the warming scan of
the hashed-account bucket followed by `SetAccountAbsent` when the target
was not found and `MarkAccountTrieAsLoaded` on the matched prefix. -/
def afterMatch (env : Env) (st : Store) (c : StateCache) (addr : Addr) (hashed : Hash)
    (K : Nibbles) (d : TrieDesc) : ReadOut (Option Account) :=
  if !d.hasState || d.loaded then
    (Except.ok none, setAccountAbsent env c addr, [])
  else
    match walkHashedAccounts env hashed (accountWalkEntries st K) c false none with
    | (Except.error e, c2) => (Except.error e, c2, [StoreAccess.walkAccounts K])
    | (Except.ok (found, a), c2) =>
        let c3 := if found then c2 else setAccountAbsent env c2 addr
        (Except.ok a, markAccountTrieAsLoaded c3 K, [StoreAccess.walkAccounts K])

/-- Step 5/6/7 dispatch on the (possibly repeated) deepest-prefix search. -/
def afterSearch (env : Env) (st : Store) (c : StateCache) (addr : Addr) (hashed : Hash)
    (P : Nibbles) : ReadOut (Option Account) :=
  match findDeepestAccountTrie c.trieIndex P with
  | none => pointFallback env st c addr
  | some (K, d) => afterMatch env st c addr hashed K d

/-- The trie-indexed read path of `ReadAccountData` (lines 48-119): hash
the address, warm the Trie Prefix Index on a miss, then dispatch. -/
def readAccountDataTriePath (env : Env) (st : Store) (c : StateCache) (addr : Addr) :
    ReadOut (Option Account) :=
  match trieWarmPhase st c (decompressNibbles (env.hash addr)) with
  | (c1, some e, lg) => (Except.error e, c1, lg)
  | (c1, none, lg) =>
      prependLog lg (afterSearch env st c1 addr (env.hash addr)
        (decompressNibbles (env.hash addr)))

/-- `CachedReader.ReadAccountData` (lines 29-120): direct tri-state cache
hit first, then the trie-indexed path (or the flat fallback when the
process-wide toggle is off). -/
def readAccountData (env : Env) (st : Store) (c : StateCache) (addr : Addr) :
    ReadOut (Option Account) :=
  match getAccount env c addr with
  | some a => (Except.ok a, c, [])
  | none =>
    if ReadStateByPrefixes then readAccountDataTriePath env st c addr
    else pointFallback env st c addr

/-- `CachedReader.ReadAccountStorage` (lines 123-138): cache hit on the
(address, incarnation, key) tuple, else one point lookup cached as Present
or (for a zero-length value) Absent. -/
def readAccountStorage (env : Env) (st : Store) (c : StateCache) (addr : Addr) (inc : Nat)
    (key : Bytes) : ReadOut Bytes :=
  match getStorage c addr inc key with
  | some s => (Except.ok s, c, [])
  | none =>
    match st.readStoragePoint addr inc key with
    | Except.error e => (Except.error e, c, [StoreAccess.getStorage addr inc key])
    | Except.ok v =>
        if v.length = 0 then
          (Except.ok v, setStorageAbsent c addr inc key, [StoreAccess.getStorage addr inc key])
        else
          (Except.ok v, setStorageRead c addr inc key v, [StoreAccess.getStorage addr inc key])

/-- `CachedReader.ReadAccountCode` (lines 142-157): the empty-code-hash
short circuit, then a cache hit keyed by (address, incarnation), else one
point lookup, cached only when the blob is at most 1024 bytes long. -/
def readAccountCode (env : Env) (st : Store) (c : StateCache) (addr : Addr) (inc : Nat)
    (codeHash : Hash) : ReadOut Bytes :=
  if codeHash = env.emptyCodeHash then (Except.ok [], c, [])
  else
    match getCode c addr inc with
    | some cd => (Except.ok cd, c, [])
    | none =>
      match st.readCodePoint addr inc codeHash with
      | Except.error e => (Except.error e, c, [StoreAccess.getCode addr inc codeHash])
      | Except.ok cd =>
          let c' := if cd.length ≤ 1024 then setCodeRead c addr inc cd else c
          (Except.ok cd, c', [StoreAccess.getCode addr inc codeHash])

/-- `CachedReader.ReadAccountCodeSize` (lines 159-162): delegate to
`ReadAccountCode` and take the length. -/
def readAccountCodeSize (env : Env) (st : Store) (c : StateCache) (addr : Addr) (inc : Nat)
    (codeHash : Hash) : ReadOut Nat :=
  match readAccountCode env st c addr inc codeHash with
  | (r, c', lg) => (r.map List.length, c', lg)

/-- `CachedReader.ReadAccountIncarnation` (lines 165-171): answer from the
deleted-account marker when one exists, else delegate. -/
def readAccountIncarnation (env : Env) (st : Store) (c : StateCache) (addr : Addr) :
    ReadOut Nat :=
  match getDeletedAccount c addr with
  | some acc => (Except.ok acc.incarnation, c, [])
  | none =>
    match st.readIncarnationPoint addr with
    | Except.error e => (Except.error e, c, [StoreAccess.getIncarnation addr])
    | Except.ok n => (Except.ok n, c, [StoreAccess.getIncarnation addr])

/-- Number of trie-node bucket scans in an access list. -/
def countTrieWalks : List StoreAccess → Nat
  | [] => 0
  | StoreAccess.walkTrie :: rest => countTrieWalks rest + 1
  | _ :: rest => countTrieWalks rest

/-- Number of hashed-account bucket scans in an access list. -/
def countAccountWalks : List StoreAccess → Nat
  | [] => 0
  | StoreAccess.walkAccounts _ :: rest => countAccountWalks rest + 1
  | _ :: rest => countAccountWalks rest

/-- Number of account point lookups in an access list. -/
def countAccountGets : List StoreAccess → Nat
  | [] => 0
  | StoreAccess.getAccount _ :: rest => countAccountGets rest + 1
  | _ :: rest => countAccountGets rest

/-- Concrete account fixture. -/
def accA : Account := ⟨1, 100, [], [], 1⟩

/-- Concrete account fixture. -/
def accB : Account := ⟨2, 200, [], [], 1⟩

/-- Witness environment: identity hashing over short byte strings, a decoder
recognising two encodings, and a sentinel empty-code hash. -/
def wEnv : Env where
  hash := fun a => a
  decodeAccount := fun v =>
    if v = [5] then some accA else if v = [7] then some accB else none
  emptyCodeHash := [14]

/-- Witness store with empty buckets and an account-free underlying reader. -/
def stEmpty : Store where
  trieBucket := []
  accountBucket := []
  readAccountPoint := fun _ => Except.ok none
  readStoragePoint := fun _ _ _ => Except.ok []
  readCodePoint := fun _ _ _ => Except.ok []
  readIncarnationPoint := fun _ => Except.ok 0

/-- Witness cache whose Trie Prefix Index holds one state-free descriptor
at the nibble prefix `[0]`. -/
def cacheIdx0 : StateCache := ⟨[([0], ⟨false, false, false, false⟩)], [], [], [], []⟩

/-- Empty witness cache. -/
def cacheEmpty : StateCache := ⟨[], [], [], [], []⟩

/-- Witness store delivering a code blob of exactly 1024 bytes. -/
def stCode : Store := { stEmpty with readCodePoint := fun _ _ _ => Except.ok (List.replicate 1024 0) }

/-- Witness trie node with live state below it. -/
def nodeF : TrieNode := ⟨true, false, false, []⟩

/-- Witness store whose trie bucket holds one node at nibble prefix `[0]`. -/
def stTrie : Store := { stEmpty with trieBucket := [TrieEntry.good [0] nodeF] }

/-- Witness cache whose Trie Prefix Index holds one live-state, unloaded
descriptor at the nibble prefix `[0]`. -/
def cacheIdx0S : StateCache := ⟨[([0], ⟨true, false, false, false⟩)], [], [], [], []⟩

/-- Witness store whose account bucket delivers one decodable record and
then an iterator fault. -/
def stCorrupt : Store :=
  { stEmpty with accountBucket := [([2], StoreVal.good [7]), ([3], StoreVal.corrupt)] }

/-- Witness store whose account bucket holds two decodable records under
the nibble prefix `[0]`. -/
def stTwo : Store :=
  { stEmpty with accountBucket := [([1], StoreVal.good [5]), ([2], StoreVal.good [7])] }

/-- The descriptor at prefix `[0]` after a completed warming scan: live
state, now loaded. -/
def d25 : TrieDesc := ⟨true, false, false, true⟩

/-! ### Association-list facts -/

theorem lookupA_insert_self {κ ν : Type} [DecidableEq κ] (m : List (κ × ν)) (k : κ) (v : ν) :
    lookupA (insertA m k v) k = some v := by
  simp [lookupA, insertA]

theorem lookupA_insert_ne {κ ν : Type} [DecidableEq κ] (m : List (κ × ν)) (k k' : κ) (v : ν)
    (h : k ≠ k') : lookupA (insertA m k v) k' = lookupA m k' := by
  simp [lookupA, insertA, h]

theorem lookupA_isSome_of_mem {κ ν : Type} [DecidableEq κ] {m : List (κ × ν)} {k : κ} {v : ν}
    (h : (k, v) ∈ m) : (lookupA m k).isSome = true := by
  induction m with
  | nil => cases h
  | cons e rest ih =>
    rcases List.mem_cons.mp h with h1 | h2
    · rw [← h1]; simp [lookupA]
    · obtain ⟨k1, v1⟩ := e
      by_cases hk : k1 = k
      · simp [lookupA, hk]
      · simp only [lookupA, if_neg hk]
        exact ih h2

theorem lookupA_isSome_insert {κ ν : Type} [DecidableEq κ] (m : List (κ × ν)) (k k' : κ) (v : ν)
    (h : (lookupA m k').isSome = true) : (lookupA (insertA m k v) k').isSome = true := by
  by_cases hk : k = k' <;> simp [lookupA, insertA, hk, h]

/-! ### Deepest-prefix search facts -/

theorem deeperOf_spec {P : Nibbles} {b : Option (Nibbles × TrieDesc)} {e r : Nibbles × TrieDesc}
    (h : deeperOf P b e = some r) :
    b = some r ∨ (r = e ∧ e.1.isPrefixOf P = true) := by
  unfold deeperOf at h
  by_cases hp : e.1.isPrefixOf P = true
  · simp only [hp, if_true] at h
    cases b with
    | none => right; exact ⟨(Option.some.inj h).symm, hp⟩
    | some b0 =>
      have h2 : (if b0.1.length < e.1.length then some e else some b0) = some r := h
      by_cases hl : b0.1.length < e.1.length
      · rw [if_pos hl] at h2
        right; exact ⟨(Option.some.inj h2).symm, hp⟩
      · rw [if_neg hl] at h2
        left; exact h2
  · simp only [hp, if_false] at h
    left; exact h

theorem foldl_deeperOf_spec (P : Nibbles) (l : List (Nibbles × TrieDesc)) :
    ∀ (b : Option (Nibbles × TrieDesc)) (r : Nibbles × TrieDesc),
      l.foldl (deeperOf P) b = some r →
      b = some r ∨ (r ∈ l ∧ r.1.isPrefixOf P = true) := by
  induction l with
  | nil => intro b r h; left; exact h
  | cons e rest ih =>
    intro b r h
    simp only [List.foldl_cons] at h
    rcases ih _ _ h with h1 | h2
    · rcases deeperOf_spec h1 with h3 | ⟨h4, h5⟩
      · left; exact h3
      · right
        refine ⟨?_, ?_⟩
        · rw [h4]; exact List.mem_cons_self e rest
        · rw [h4]; exact h5
    · right; exact ⟨List.mem_cons_of_mem _ h2.1, h2.2⟩

theorem findDeepest_mem {idx : List (Nibbles × TrieDesc)} {P : Nibbles} {r : Nibbles × TrieDesc}
    (h : findDeepestAccountTrie idx P = some r) :
    r ∈ idx ∧ r.1.isPrefixOf P = true := by
  unfold findDeepestAccountTrie at h
  rcases foldl_deeperOf_spec P idx none r h with h1 | h2
  · cases h1
  · exact h2

/-! ### MarkLoaded facts -/

theorem markLoadedIdx_loaded {idx : List (Nibbles × TrieDesc)} {K : Nibbles} {d : TrieDesc}
    (h : (K, d) ∈ markLoadedIdx idx K) : d.loaded = true := by
  unfold markLoadedIdx at h
  rcases List.mem_map.mp h with ⟨e, he, hf⟩
  by_cases hk : e.1 = K
  · rw [if_pos hk] at hf
    have h2 : ({ e.2 with loaded := true } : TrieDesc) = d := congrArg Prod.snd hf
    rw [← h2]
  · rw [if_neg hk] at hf
    exact absurd (congrArg Prod.fst hf) hk

theorem lookupA_markLoadedIdx (idx : List (Nibbles × TrieDesc)) (K k : Nibbles) :
    lookupA (markLoadedIdx idx K) k =
      if k = K then (lookupA idx k).map (fun d => { d with loaded := true })
      else lookupA idx k := by
  induction idx with
  | nil => by_cases hk : k = K <;> simp [markLoadedIdx, lookupA, hk]
  | cons e rest ih =>
    obtain ⟨k0, d0⟩ := e
    simp only [markLoadedIdx] at ih ⊢
    rw [List.map_cons]
    by_cases hk0 : k0 = K
    · rw [if_pos hk0]
      by_cases hkk : k0 = k
      · rw [← hkk] at ih ⊢
        simp [lookupA, hk0, ih]
      · simp only [lookupA, if_neg hkk, ih]
    · rw [if_neg hk0]
      by_cases hkk : k0 = k
      · have hknK : ¬(k = K) := by rw [← hkk]; exact hk0
        simp [lookupA, hkk, hknK]
      · simp only [lookupA, if_neg hkk, ih]

theorem lookupA_markLoadedIdx_isSome (idx : List (Nibbles × TrieDesc)) (K k : Nibbles) :
    (lookupA (markLoadedIdx idx K) k).isSome = (lookupA idx k).isSome := by
  rw [lookupA_markLoadedIdx]
  by_cases hk : k = K
  · rw [if_pos hk]
    cases lookupA idx k <;> rfl
  · rw [if_neg hk]

/-! ### Trie-bucket scan facts -/

theorem walkAccountTrie_frame (l : List TrieEntry) :
    ∀ c : StateCache,
      (walkAccountTrie l c).1.accounts = c.accounts ∧
      (walkAccountTrie l c).1.storage = c.storage ∧
      (walkAccountTrie l c).1.code = c.code ∧
      (walkAccountTrie l c).1.deleted = c.deleted := by
  induction l with
  | nil => intro c; exact ⟨rfl, rfl, rfl, rfl⟩
  | cons e rest ih =>
    intro c
    cases e with
    | corrupt => exact ⟨rfl, rfl, rfl, rfl⟩
    | good k n =>
      have h := ih (setAccountTrieRead c k n)
      simpa [walkAccountTrie, setAccountTrieRead] using h

theorem walkAccountTrie_isSome (l : List TrieEntry) :
    ∀ (c : StateCache) (k : Nibbles), (lookupA c.trieIndex k).isSome = true →
      (lookupA (walkAccountTrie l c).1.trieIndex k).isSome = true := by
  induction l with
  | nil => intro c k h; exact h
  | cons e rest ih =>
    intro c k h
    cases e with
    | corrupt => exact h
    | good k0 n0 =>
      refine ih (setAccountTrieRead c k0 n0) k ?_
      simp only [setAccountTrieRead]
      exact lookupA_isSome_insert _ _ _ _ h

theorem walkAccountTrie_contains (l : List TrieEntry) :
    ∀ c : StateCache, (walkAccountTrie l c).2 = none → ∀ k n, TrieEntry.good k n ∈ l →
      (lookupA (walkAccountTrie l c).1.trieIndex k).isSome = true := by
  induction l with
  | nil => intro c _ k n h; cases h
  | cons e rest ih =>
    intro c hok k n hmem
    cases e with
    | corrupt => exact absurd hok (by simp [walkAccountTrie])
    | good k0 n0 =>
      rcases List.mem_cons.mp hmem with h1 | h2
      · have hk : k = k0 ∧ n = n0 := by
          rw [TrieEntry.good.injEq] at h1
          exact h1
        rw [hk.1]
        refine walkAccountTrie_isSome rest (setAccountTrieRead c k0 n0) k0 ?_
        simp only [setAccountTrieRead]
        rw [lookupA_insert_self]
        rfl
      · exact ih (setAccountTrieRead c k0 n0) hok k n h2

/-! ### Warming-phase facts -/

theorem trieWarmPhase_hit {st : Store} {c : StateCache} {P : Nibbles}
    {x : Nibbles × TrieDesc} (h : findDeepestAccountTrie c.trieIndex P = some x) :
    trieWarmPhase st c P = (c, none, []) := by
  unfold trieWarmPhase
  rw [h]

theorem trieWarmPhase_miss {st : Store} {c : StateCache} {P : Nibbles}
    (h : findDeepestAccountTrie c.trieIndex P = none) :
    trieWarmPhase st c P =
      ((walkAccountTrie st.trieBucket c).1, (walkAccountTrie st.trieBucket c).2,
        [StoreAccess.walkTrie]) := by
  unfold trieWarmPhase
  rw [h]

theorem trieWarmPhase_frame (st : Store) (c : StateCache) (P : Nibbles) :
    (trieWarmPhase st c P).1.accounts = c.accounts ∧
    (trieWarmPhase st c P).1.storage = c.storage ∧
    (trieWarmPhase st c P).1.code = c.code ∧
    (trieWarmPhase st c P).1.deleted = c.deleted := by
  cases h : findDeepestAccountTrie c.trieIndex P with
  | some x => rw [trieWarmPhase_hit h]; exact ⟨rfl, rfl, rfl, rfl⟩
  | none => rw [trieWarmPhase_miss h]; exact walkAccountTrie_frame st.trieBucket c

theorem trieWarmPhase_log (st : Store) (c : StateCache) (P : Nibbles) :
    (trieWarmPhase st c P).2.2 = [] ∨ (trieWarmPhase st c P).2.2 = [StoreAccess.walkTrie] := by
  cases h : findDeepestAccountTrie c.trieIndex P with
  | some x => rw [trieWarmPhase_hit h]; left; rfl
  | none => rw [trieWarmPhase_miss h]; right; rfl

theorem lookupA_insert {κ ν : Type} [DecidableEq κ] (m : List (κ × ν)) (k k' : κ) (v : ν) :
    lookupA (insertA m k v) k' = if k = k' then some v else lookupA m k' := by
  simp [lookupA, insertA]

/-! ### Account warming-walk step equations -/

theorem walkHashed_nil (env : Env) (hashed : Hash) (c : StateCache) (found : Bool)
    (a : Option Account) :
    walkHashedAccounts env hashed [] c found a = (Except.ok (found, a), c) := rfl

theorem walkHashed_corrupt (env : Env) (hashed : Hash) (k : Hash)
    (rest : List (Hash × StoreVal)) (c : StateCache) (found : Bool) (a : Option Account) :
    walkHashedAccounts env hashed ((k, StoreVal.corrupt) :: rest) c found a =
      (Except.error Err.storeErr, c) := rfl

theorem walkHashed_good_hit {c : StateCache} {k : Hash} {acc : Option Account}
    (env : Env) (hashed : Hash) (v : Bytes) (rest : List (Hash × StoreVal)) (found : Bool)
    (a : Option Account) (hga : getAccountByHashedAddress c k = some acc) :
    walkHashedAccounts env hashed ((k, StoreVal.good v) :: rest) c found a =
      walkHashedAccounts env hashed rest c
        (if k = hashed then true else found) (if k = hashed then acc else a) := by
  conv_lhs => rw [walkHashedAccounts]
  rw [hga]

theorem walkHashed_good_badDecode {c : StateCache} {k : Hash} {v : Bytes}
    (env : Env) (hashed : Hash) (rest : List (Hash × StoreVal)) (found : Bool)
    (a : Option Account) (hga : getAccountByHashedAddress c k = none)
    (hdec : env.decodeAccount v = none) :
    walkHashedAccounts env hashed ((k, StoreVal.good v) :: rest) c found a =
      (Except.error Err.decodeErr, c) := by
  unfold walkHashedAccounts
  rw [hga, hdec]

theorem walkHashed_good_fresh {c : StateCache} {k : Hash} {v : Bytes} {acc : Account}
    (env : Env) (hashed : Hash) (rest : List (Hash × StoreVal)) (found : Bool)
    (a : Option Account) (hga : getAccountByHashedAddress c k = none)
    (hdec : env.decodeAccount v = some acc) :
    walkHashedAccounts env hashed ((k, StoreVal.good v) :: rest) c found a =
      walkHashedAccounts env hashed rest (deprecatedSetAccountRead c k acc)
        (if k = hashed then true else found) (if k = hashed then some acc else a) := by
  conv_lhs => rw [walkHashedAccounts]
  rw [hga, hdec]

/-! ### Account warming-walk invariants -/

theorem walkHashed_frame (env : Env) (hashed : Hash) (l : List (Hash × StoreVal)) :
    ∀ (c : StateCache) (found : Bool) (a : Option Account),
      (walkHashedAccounts env hashed l c found a).2.trieIndex = c.trieIndex ∧
      (walkHashedAccounts env hashed l c found a).2.storage = c.storage ∧
      (walkHashedAccounts env hashed l c found a).2.code = c.code ∧
      (walkHashedAccounts env hashed l c found a).2.deleted = c.deleted := by
  induction l with
  | nil => intro c found a; exact ⟨rfl, rfl, rfl, rfl⟩
  | cons e rest ih =>
    intro c found a
    obtain ⟨k, v⟩ := e
    cases v with
    | corrupt => exact ⟨rfl, rfl, rfl, rfl⟩
    | good bs =>
      cases hga : getAccountByHashedAddress c k with
      | some acc =>
        rw [walkHashed_good_hit env hashed bs rest found a hga]
        exact ih c _ _
      | none =>
        cases hdec : env.decodeAccount bs with
        | none =>
          rw [walkHashed_good_badDecode env hashed rest found a hga hdec]
          exact ⟨rfl, rfl, rfl, rfl⟩
        | some acc =>
          rw [walkHashed_good_fresh env hashed rest found a hga hdec]
          have h := ih (deprecatedSetAccountRead c k acc) (if k = hashed then true else found)
            (if k = hashed then some acc else a)
          simpa [deprecatedSetAccountRead] using h

theorem walkHashed_mono (env : Env) (hashed : Hash) (l : List (Hash × StoreVal)) :
    ∀ (c : StateCache) (found : Bool) (a : Option Account) (h : Hash) (w : Option Account),
      getAccountByHashedAddress c h = some w →
      getAccountByHashedAddress (walkHashedAccounts env hashed l c found a).2 h = some w := by
  induction l with
  | nil => intro c found a h w hw; exact hw
  | cons e rest ih =>
    intro c found a h w hw
    obtain ⟨k, v⟩ := e
    cases v with
    | corrupt => exact hw
    | good bs =>
      cases hga : getAccountByHashedAddress c k with
      | some acc =>
        rw [walkHashed_good_hit env hashed bs rest found a hga]
        exact ih c _ _ h w hw
      | none =>
        cases hdec : env.decodeAccount bs with
        | none =>
          rw [walkHashed_good_badDecode env hashed rest found a hga hdec]
          exact hw
        | some acc =>
          rw [walkHashed_good_fresh env hashed rest found a hga hdec]
          refine ih (deprecatedSetAccountRead c k acc) _ _ h w ?_
          have hkh : k ≠ h := by
            intro he
            rw [he, hw] at hga
            cases hga
          simp only [getAccountByHashedAddress, deprecatedSetAccountRead] at hw ⊢
          rw [lookupA_insert, if_neg hkh]
          exact hw

theorem walkHashed_other (env : Env) (hashed : Hash) (l : List (Hash × StoreVal)) :
    ∀ (c : StateCache) (found : Bool) (a : Option Account) (h : Hash),
      (∀ e ∈ l, e.1 ≠ h) →
      getAccountByHashedAddress (walkHashedAccounts env hashed l c found a).2 h =
        getAccountByHashedAddress c h := by
  induction l with
  | nil => intro c found a h _; rfl
  | cons e rest ih =>
    intro c found a h hne
    obtain ⟨k, v⟩ := e
    have hk : k ≠ h := hne (k, v) (List.mem_cons_self _ _)
    have hrest : ∀ e ∈ rest, e.1 ≠ h := fun e he => hne e (List.mem_cons_of_mem _ he)
    cases v with
    | corrupt => rfl
    | good bs =>
      cases hga : getAccountByHashedAddress c k with
      | some acc =>
        rw [walkHashed_good_hit env hashed bs rest found a hga]
        exact ih c _ _ h hrest
      | none =>
        cases hdec : env.decodeAccount bs with
        | none =>
          rw [walkHashed_good_badDecode env hashed rest found a hga hdec]
        | some acc =>
          rw [walkHashed_good_fresh env hashed rest found a hga hdec]
          rw [ih (deprecatedSetAccountRead c k acc) _ _ h hrest]
          simp only [getAccountByHashedAddress, deprecatedSetAccountRead]
          rw [lookupA_insert, if_neg hk]

theorem walkHashed_append (env : Env) (hashed : Hash) (l1 l2 : List (Hash × StoreVal)) :
    ∀ (c : StateCache) (found : Bool) (a : Option Account),
      walkHashedAccounts env hashed (l1 ++ l2) c found a =
        match walkHashedAccounts env hashed l1 c found a with
        | (Except.ok (f, b), c') => walkHashedAccounts env hashed l2 c' f b
        | (Except.error e, c') => (Except.error e, c') := by
  induction l1 with
  | nil => intro c found a; rfl
  | cons e rest ih =>
    intro c found a
    obtain ⟨k, v⟩ := e
    cases v with
    | corrupt => rfl
    | good bs =>
      rw [List.cons_append]
      cases hga : getAccountByHashedAddress c k with
      | some acc =>
        rw [walkHashed_good_hit env hashed bs (rest ++ l2) found a hga,
          walkHashed_good_hit env hashed bs rest found a hga]
        exact ih c _ _
      | none =>
        cases hdec : env.decodeAccount bs with
        | none =>
          rw [walkHashed_good_badDecode env hashed (rest ++ l2) found a hga hdec,
            walkHashed_good_badDecode env hashed rest found a hga hdec]
        | some acc =>
          rw [walkHashed_good_fresh env hashed (rest ++ l2) found a hga hdec,
            walkHashed_good_fresh env hashed rest found a hga hdec]
          exact ih (deprecatedSetAccountRead c k acc) _ _

theorem walkHashed_inv (env : Env) (hashed : Hash) (l : List (Hash × StoreVal)) :
    ∀ (c : StateCache) (found : Bool) (a : Option Account) (f : Bool) (b : Option Account)
      (c' : StateCache),
      walkHashedAccounts env hashed l c found a = (Except.ok (f, b), c') →
      (found = true → getAccountByHashedAddress c hashed = some a) →
      (f = true → getAccountByHashedAddress c' hashed = some b) := by
  induction l with
  | nil =>
    intro c found a f b c' heq hinv
    rw [walkHashed_nil] at heq
    simp only [Prod.mk.injEq, Except.ok.injEq] at heq
    obtain ⟨⟨hf, ha⟩, hc⟩ := heq
    rw [← hf, ← ha, ← hc]
    exact hinv
  | cons e rest ih =>
    intro c found a f b c' heq hinv
    obtain ⟨k, v⟩ := e
    cases v with
    | corrupt =>
      rw [walkHashed_corrupt] at heq
      cases ((Prod.mk.injEq _ _ _ _).mp heq).1
    | good bs =>
      cases hga : getAccountByHashedAddress c k with
      | some acc =>
        rw [walkHashed_good_hit env hashed bs rest found a hga] at heq
        refine ih c _ _ f b c' heq ?_
        by_cases hk : k = hashed
        · rw [if_pos hk, if_pos hk]
          intro _
          rw [← hk]
          exact hga
        · rw [if_neg hk, if_neg hk]
          exact hinv
      | none =>
        cases hdec : env.decodeAccount bs with
        | none =>
          rw [walkHashed_good_badDecode env hashed rest found a hga hdec] at heq
          cases ((Prod.mk.injEq _ _ _ _).mp heq).1
        | some acc =>
          rw [walkHashed_good_fresh env hashed rest found a hga hdec] at heq
          refine ih (deprecatedSetAccountRead c k acc) _ _ f b c' heq ?_
          by_cases hk : k = hashed
          · rw [if_pos hk, if_pos hk]
            intro _
            simp only [getAccountByHashedAddress, deprecatedSetAccountRead]
            rw [← hk, lookupA_insert, if_pos rfl]
          · rw [if_neg hk, if_neg hk]
            intro hfound
            simp only [getAccountByHashedAddress, deprecatedSetAccountRead]
            rw [lookupA_insert, if_neg hk]
            exact hinv hfound

theorem walkHashed_all (env : Env) (hashed : Hash) (l : List (Hash × StoreVal)) :
    ∀ (c : StateCache) (found : Bool) (a : Option Account) (r : Bool × Option Account)
      (c' : StateCache),
      walkHashedAccounts env hashed l c found a = (Except.ok r, c') →
      ∀ e ∈ l, (getAccountByHashedAddress c' e.1).isSome = true := by
  induction l with
  | nil => intro c found a r c' _ e he; cases he
  | cons e0 rest ih =>
    intro c found a r c' heq e he
    obtain ⟨k, v⟩ := e0
    cases v with
    | corrupt =>
      rw [walkHashed_corrupt] at heq
      cases ((Prod.mk.injEq _ _ _ _).mp heq).1
    | good bs =>
      cases hga : getAccountByHashedAddress c k with
      | some acc =>
        rw [walkHashed_good_hit env hashed bs rest found a hga] at heq
        rcases List.mem_cons.mp he with h1 | h2
        · have hm := walkHashed_mono env hashed rest c (if k = hashed then true else found)
            (if k = hashed then acc else a) k acc hga
          rw [heq] at hm
          have hm2 : getAccountByHashedAddress c' k = some acc := hm
          rw [h1]
          show (getAccountByHashedAddress c' k).isSome = true
          rw [hm2]
          rfl
        · exact ih c _ _ r c' heq e h2
      | none =>
        cases hdec : env.decodeAccount bs with
        | none =>
          rw [walkHashed_good_badDecode env hashed rest found a hga hdec] at heq
          cases ((Prod.mk.injEq _ _ _ _).mp heq).1
        | some acc =>
          rw [walkHashed_good_fresh env hashed rest found a hga hdec] at heq
          rcases List.mem_cons.mp he with h1 | h2
          · have hbase : getAccountByHashedAddress (deprecatedSetAccountRead c k acc) k
                = some (some acc) := by
              simp only [getAccountByHashedAddress, deprecatedSetAccountRead]
              rw [lookupA_insert, if_pos rfl]
            have hm := walkHashed_mono env hashed rest (deprecatedSetAccountRead c k acc)
              (if k = hashed then true else found) (if k = hashed then some acc else a)
              k (some acc) hbase
            rw [heq] at hm
            have hm2 : getAccountByHashedAddress c' k = some (some acc) := hm
            rw [h1]
            show (getAccountByHashedAddress c' k).isSome = true
            rw [hm2]
            rfl
          · exact ih (deprecatedSetAccountRead c k acc) _ _ r c' heq e h2

/-! ### Reader branch equations -/

theorem readAccountData_hit {env : Env} {c : StateCache} {addr : Addr} {a : Option Account}
    (st : Store) (h : getAccount env c addr = some a) :
    readAccountData env st c addr = (Except.ok a, c, []) := by
  unfold readAccountData
  rw [h]

theorem readAccountData_miss {env : Env} {c : StateCache} {addr : Addr}
    (st : Store) (h : getAccount env c addr = none) :
    readAccountData env st c addr = readAccountDataTriePath env st c addr := by
  unfold readAccountData
  rw [h]
  rfl

theorem triePath_warmErr {env : Env} {st : Store} {c c1 : StateCache} {addr : Addr}
    {e : Err} {lg : List StoreAccess}
    (h : trieWarmPhase st c (decompressNibbles (env.hash addr)) = (c1, some e, lg)) :
    readAccountDataTriePath env st c addr = (Except.error e, c1, lg) := by
  unfold readAccountDataTriePath
  rw [h]

theorem triePath_warm {env : Env} {st : Store} {c c1 : StateCache} {addr : Addr}
    {lg : List StoreAccess}
    (h : trieWarmPhase st c (decompressNibbles (env.hash addr)) = (c1, none, lg)) :
    readAccountDataTriePath env st c addr =
      prependLog lg (afterSearch env st c1 addr (env.hash addr)
        (decompressNibbles (env.hash addr))) := by
  unfold readAccountDataTriePath
  rw [h]

theorem afterSearch_none {env : Env} {st : Store} {c : StateCache} {addr : Addr}
    {hashed : Hash} {P : Nibbles} (h : findDeepestAccountTrie c.trieIndex P = none) :
    afterSearch env st c addr hashed P = pointFallback env st c addr := by
  unfold afterSearch
  rw [h]

theorem afterSearch_some {env : Env} {st : Store} {c : StateCache} {addr : Addr}
    {hashed : Hash} {P : Nibbles} {K : Nibbles} {d : TrieDesc}
    (h : findDeepestAccountTrie c.trieIndex P = some (K, d)) :
    afterSearch env st c addr hashed P = afterMatch env st c addr hashed K d := by
  unfold afterSearch
  rw [h]

theorem afterMatch_absent {env : Env} {st : Store} {c : StateCache} {addr : Addr}
    {hashed : Hash} {K : Nibbles} {d : TrieDesc} (h : (!d.hasState || d.loaded) = true) :
    afterMatch env st c addr hashed K d =
      (Except.ok none, setAccountAbsent env c addr, []) := by
  unfold afterMatch
  rw [h]
  rfl

theorem afterMatch_walkErr {env : Env} {st : Store} {c c2 : StateCache} {addr : Addr}
    {hashed : Hash} {K : Nibbles} {d : TrieDesc} {e : Err}
    (h : (!d.hasState || d.loaded) = false)
    (hw : walkHashedAccounts env hashed (accountWalkEntries st K) c false none =
      (Except.error e, c2)) :
    afterMatch env st c addr hashed K d = (Except.error e, c2, [StoreAccess.walkAccounts K]) := by
  unfold afterMatch
  rw [h, hw]
  rfl

theorem afterMatch_walkOk {env : Env} {st : Store} {c c2 : StateCache} {addr : Addr}
    {hashed : Hash} {K : Nibbles} {d : TrieDesc} {f : Bool} {a : Option Account}
    (h : (!d.hasState || d.loaded) = false)
    (hw : walkHashedAccounts env hashed (accountWalkEntries st K) c false none =
      (Except.ok (f, a), c2)) :
    afterMatch env st c addr hashed K d =
      (Except.ok a,
        markAccountTrieAsLoaded (if f then c2 else setAccountAbsent env c2 addr) K,
        [StoreAccess.walkAccounts K]) := by
  unfold afterMatch
  rw [h, hw]
  rfl

theorem pointFallback_err {env : Env} {st : Store} {c : StateCache} {addr : Addr} {e : Err}
    (h : st.readAccountPoint addr = Except.error e) :
    pointFallback env st c addr = (Except.error e, c, [StoreAccess.getAccount addr]) := by
  unfold pointFallback
  rw [h]

theorem pointFallback_none {env : Env} {st : Store} {c : StateCache} {addr : Addr}
    (h : st.readAccountPoint addr = Except.ok none) :
    pointFallback env st c addr =
      (Except.ok none, setAccountAbsent env c addr, [StoreAccess.getAccount addr]) := by
  unfold pointFallback
  rw [h]

theorem pointFallback_some {env : Env} {st : Store} {c : StateCache} {addr : Addr} {a : Account}
    (h : st.readAccountPoint addr = Except.ok (some a)) :
    pointFallback env st c addr =
      (Except.ok (some a), setAccountRead env c addr a, [StoreAccess.getAccount addr]) := by
  unfold pointFallback
  rw [h]

/-! ### Claims -/

/-- C3: when the direct cache lookup misses, a deepest-prefix match exists
for the hashed address's nibble path, and the matched descriptor has
`hasState = false` or `loaded = true`, `ReadAccountData` marks the address
Absent in the Account Cache and returns Absent, with no backing-store
access at all (the access list is empty, so neither a point lookup nor a
range scan happened). -/
theorem c3_match_absent_no_store (env : Env) (st : Store) (c : StateCache) (addr : Addr)
    (K : Nibbles) (d : TrieDesc)
    (hmiss : getAccount env c addr = none)
    (hfd : findDeepestAccountTrie c.trieIndex (decompressNibbles (env.hash addr)) = some (K, d))
    (hcond : d.hasState = false ∨ d.loaded = true) :
    readAccountData env st c addr = (Except.ok none, setAccountAbsent env c addr, []) := by
  have hb : (!d.hasState || d.loaded) = true := by
    rcases hcond with h | h
    · rw [h]; rfl
    · rw [h]; simp
  rw [readAccountData_miss st hmiss, triePath_warm (trieWarmPhase_hit hfd),
    afterSearch_some hfd, afterMatch_absent hb]
  rfl

/-- Witness for C3 at a concrete cache holding a state-free descriptor at
prefix `[0]` which covers the queried address's nibble path. -/
theorem c3_match_absent_no_store_wit :
    readAccountData wEnv stEmpty cacheIdx0 [1] =
      (Except.ok none, setAccountAbsent wEnv cacheIdx0 [1], []) :=
  c3_match_absent_no_store wEnv stEmpty cacheIdx0 [1] [0] ⟨false, false, false, false⟩
    rfl rfl (Or.inl rfl)

/-- C7: the storage cache is scoped by incarnation.  A value recorded for
incarnation `i` is invisible to a lookup under incarnation `j ≠ i`: the
lookup still misses, and `ReadAccountStorage` performs the point lookup
against the Backing Store and returns the store's answer, never the value
cached under the other incarnation. -/
theorem c7_storage_incarnation_scoped (env : Env) (st : Store) (c : StateCache) (addr : Addr)
    (i j : Nat) (key v1 w : Bytes)
    (hij : i ≠ j)
    (hmiss : getStorage c addr j key = none)
    (hst : st.readStoragePoint addr j key = Except.ok w) :
    getStorage (setStorageRead c addr i key v1) addr j key = none ∧
    (readAccountStorage env st (setStorageRead c addr i key v1) addr j key).1 = Except.ok w ∧
    (readAccountStorage env st (setStorageRead c addr i key v1) addr j key).2.2 =
      [StoreAccess.getStorage addr j key] := by
  have hne : ((addr, i, key) : Addr × Nat × Bytes) ≠ (addr, j, key) := by
    intro h
    exact hij (congrArg (fun t => t.2.1) h)
  have h1 : getStorage (setStorageRead c addr i key v1) addr j key = none := by
    show lookupA (insertA c.storage (addr, i, key) v1) (addr, j, key) = none
    rw [lookupA_insert, if_neg hne]
    exact hmiss
  have h2 : readAccountStorage env st (setStorageRead c addr i key v1) addr j key =
      (Except.ok w,
        (if w.length = 0 then setStorageAbsent (setStorageRead c addr i key v1) addr j key
         else setStorageRead (setStorageRead c addr i key v1) addr j key w),
        [StoreAccess.getStorage addr j key]) := by
    unfold readAccountStorage
    rw [h1, hst]
    by_cases hw : w.length = 0
    · simp [hw]
    · simp [hw]
  exact ⟨h1, by rw [h2], by rw [h2]⟩

/-- Witness for C7 with incarnations 1 and 2 over the empty cache. -/
theorem c7_storage_incarnation_scoped_wit :
    getStorage (setStorageRead cacheEmpty [1] 1 [3] [9]) [1] 2 [3] = none ∧
    (readAccountStorage wEnv stEmpty (setStorageRead cacheEmpty [1] 1 [3] [9]) [1] 2 [3]).1 =
      Except.ok [] ∧
    (readAccountStorage wEnv stEmpty (setStorageRead cacheEmpty [1] 1 [3] [9]) [1] 2 [3]).2.2 =
      [StoreAccess.getStorage [1] 2 [3]] :=
  c7_storage_incarnation_scoped wEnv stEmpty cacheEmpty [1] 1 2 [3] [9] []
    (by decide) rfl rfl

/-- C9: after the empty-code-hash short circuit and a code-cache miss, one
point lookup fetches the blob; it is written to the code cache exactly
when its length is at most 1024 bytes.  When cached, a repeated call is a
pure cache hit (empty access list); when longer than 1024 bytes the cache
is left unchanged, so a repeated call runs the same store query again. -/
theorem c9_code_cache_cutoff (env : Env) (st : Store) (c : StateCache) (addr : Addr) (inc : Nat)
    (ch : Hash) (cd : Bytes)
    (hch : ch ≠ env.emptyCodeHash)
    (hmiss : getCode c addr inc = none)
    (hread : st.readCodePoint addr inc ch = Except.ok cd) :
    readAccountCode env st c addr inc ch =
      (Except.ok cd, (if cd.length ≤ 1024 then setCodeRead c addr inc cd else c),
        [StoreAccess.getCode addr inc ch]) ∧
    (cd.length ≤ 1024 →
      ∀ st2 : Store, readAccountCode env st2 (setCodeRead c addr inc cd) addr inc ch =
        (Except.ok cd, setCodeRead c addr inc cd, [])) ∧
    (1024 < cd.length →
      (if cd.length ≤ 1024 then setCodeRead c addr inc cd else c) = c) := by
  refine ⟨?_, ?_, ?_⟩
  · unfold readAccountCode
    rw [if_neg hch, hmiss, hread]
  · intro _ st2
    have hhit : getCode (setCodeRead c addr inc cd) addr inc = some cd := by
      show lookupA (insertA c.code (addr, inc) cd) (addr, inc) = some cd
      rw [lookupA_insert_self]
    unfold readAccountCode
    rw [if_neg hch, hhit]
  · intro hgt
    rw [if_neg (by omega : ¬ cd.length ≤ 1024)]

/-- Witness for C9 at a blob of exactly 1024 bytes: the first call caches
it and the second call is a pure hit. -/
theorem c9_code_cache_cutoff_wit :
    readAccountCode wEnv stCode cacheEmpty [1] 1 [2] =
      (Except.ok (List.replicate 1024 0),
        (if (List.replicate 1024 0).length ≤ 1024 then
          setCodeRead cacheEmpty [1] 1 (List.replicate 1024 0) else cacheEmpty),
        [StoreAccess.getCode [1] 1 [2]]) ∧
    readAccountCode wEnv stEmpty (setCodeRead cacheEmpty [1] 1 (List.replicate 1024 0)) [1] 1 [2] =
      (Except.ok (List.replicate 1024 0), setCodeRead cacheEmpty [1] 1 (List.replicate 1024 0),
        []) := by
  have h := c9_code_cache_cutoff wEnv stCode cacheEmpty [1] 1 [2] (List.replicate 1024 0)
    (by decide) rfl rfl
  have hlen : (List.replicate 1024 (0 : Nat)).length ≤ 1024 := by
    rw [List.length_replicate]
  exact ⟨h.1, h.2.1 hlen stEmpty⟩

theorem prependLog_mk {α : Type} (lg : List StoreAccess) (x : Except Err α) (y : StateCache)
    (l : List StoreAccess) : prependLog lg (x, y, l) = (x, y, lg ++ l) := rfl

theorem afterSearch_no_trieWalk (env : Env) (st : Store) (c : StateCache) (addr : Addr)
    (hashed : Hash) (P : Nibbles) :
    countTrieWalks (afterSearch env st c addr hashed P).2.2 = 0 := by
  cases hfd : findDeepestAccountTrie c.trieIndex P with
  | none =>
    rw [afterSearch_none hfd]
    cases hrp : st.readAccountPoint addr with
    | error e => rw [pointFallback_err hrp]; rfl
    | ok r =>
      cases r with
      | none => rw [pointFallback_none hrp]; rfl
      | some a => rw [pointFallback_some hrp]; rfl
  | some x =>
    obtain ⟨K, d⟩ := x
    rw [afterSearch_some hfd]
    by_cases hb : (!d.hasState || d.loaded) = true
    · rw [afterMatch_absent hb]; rfl
    · have hb' : (!d.hasState || d.loaded) = false := Bool.eq_false_iff.mpr hb
      cases hw : walkHashedAccounts env hashed (accountWalkEntries st K) c false none with
      | mk res cw =>
        cases res with
        | error e => rw [afterMatch_walkErr hb' hw]; rfl
        | ok fa =>
          obtain ⟨f, a⟩ := fa
          rw [afterMatch_walkOk hb' hw]; rfl

theorem afterSearch_trieIndex_isSome (env : Env) (st : Store) (c : StateCache) (addr : Addr)
    (hashed : Hash) (P : Nibbles) (k : Nibbles)
    (h : (lookupA c.trieIndex k).isSome = true) :
    (lookupA (afterSearch env st c addr hashed P).2.1.trieIndex k).isSome = true := by
  cases hfd : findDeepestAccountTrie c.trieIndex P with
  | none =>
    rw [afterSearch_none hfd]
    cases hrp : st.readAccountPoint addr with
    | error e => rw [pointFallback_err hrp]; exact h
    | ok r =>
      cases r with
      | none => rw [pointFallback_none hrp]; exact h
      | some a => rw [pointFallback_some hrp]; exact h
  | some x =>
    obtain ⟨K, d⟩ := x
    rw [afterSearch_some hfd]
    by_cases hb : (!d.hasState || d.loaded) = true
    · rw [afterMatch_absent hb]; exact h
    · have hb' : (!d.hasState || d.loaded) = false := Bool.eq_false_iff.mpr hb
      cases hw : walkHashedAccounts env hashed (accountWalkEntries st K) c false none with
      | mk res cw =>
        have hfr := (walkHashed_frame env hashed (accountWalkEntries st K) c false none).1
        rw [hw] at hfr
        cases res with
        | error e =>
          rw [afterMatch_walkErr hb' hw]
          show (lookupA cw.trieIndex k).isSome = true
          rw [show cw.trieIndex = c.trieIndex from hfr]
          exact h
        | ok fa =>
          obtain ⟨f, a⟩ := fa
          rw [afterMatch_walkOk hb' hw]
          show (lookupA (markAccountTrieAsLoaded
            (if f then cw else setAccountAbsent env cw addr) K).trieIndex k).isSome = true
          have hidx : (if f then cw else setAccountAbsent env cw addr).trieIndex
              = c.trieIndex := by
            cases f with
            | true => exact hfr
            | false => exact hfr
          show (lookupA (markLoadedIdx
            (if f then cw else setAccountAbsent env cw addr).trieIndex K) k).isSome = true
          rw [hidx, lookupA_markLoadedIdx_isSome]
          exact h

/-- C8: when the deepest-prefix search still finds no match after the
trie-bucket warming scan, `ReadAccountData` falls back to exactly one
point lookup of the address against the account state (no account-bucket
range scan), caches the answer as Present or Absent, returns it, and
mutates nothing else: the Trie Prefix Index is exactly as the warming scan
left it (nothing inserted from the point-lookup result), the storage, code
and deleted maps are untouched, and the account map changes at most at the
queried address's hashed key. -/
theorem c8_point_fallback_frame (env : Env) (st : Store) (c : StateCache) (addr : Addr)
    (c1 : StateCache) (lg1 : List StoreAccess) (r : Option Account)
    (hmiss : getAccount env c addr = none)
    (hwarm : trieWarmPhase st c (decompressNibbles (env.hash addr)) = (c1, none, lg1))
    (hnone : findDeepestAccountTrie c1.trieIndex (decompressNibbles (env.hash addr)) = none)
    (hread : st.readAccountPoint addr = Except.ok r) :
    (readAccountData env st c addr).1 = Except.ok r ∧
    (readAccountData env st c addr).2.2 = lg1 ++ [StoreAccess.getAccount addr] ∧
    (lg1 = [] ∨ lg1 = [StoreAccess.walkTrie]) ∧
    getAccount env (readAccountData env st c addr).2.1 addr = some r ∧
    (readAccountData env st c addr).2.1.trieIndex = c1.trieIndex ∧
    (readAccountData env st c addr).2.1.storage = c.storage ∧
    (readAccountData env st c addr).2.1.code = c.code ∧
    (readAccountData env st c addr).2.1.deleted = c.deleted ∧
    ∀ h : Hash, h ≠ env.hash addr →
      lookupA (readAccountData env st c addr).2.1.accounts h = lookupA c.accounts h := by
  have hfr := trieWarmPhase_frame st c (decompressNibbles (env.hash addr))
  rw [hwarm] at hfr
  obtain ⟨hacc, hsto, hcod, hdel⟩ := hfr
  have hlg := trieWarmPhase_log st c (decompressNibbles (env.hash addr))
  rw [hwarm] at hlg
  have hshape : readAccountData env st c addr =
      prependLog lg1 (pointFallback env st c1 addr) := by
    rw [readAccountData_miss st hmiss, triePath_warm hwarm, afterSearch_none hnone]
  cases r with
  | none =>
    have hout : readAccountData env st c addr =
        (Except.ok none, setAccountAbsent env c1 addr, lg1 ++ [StoreAccess.getAccount addr]) := by
      rw [hshape, pointFallback_none hread, prependLog_mk]
    rw [hout]
    refine ⟨rfl, rfl, hlg, ?_, rfl, hsto, hcod, hdel, ?_⟩
    · show lookupA (insertA c1.accounts (env.hash addr) none) (env.hash addr) = some none
      rw [lookupA_insert_self]
    · intro h hne
      show lookupA (insertA c1.accounts (env.hash addr) none) h = lookupA c.accounts h
      rw [lookupA_insert, if_neg (fun he => hne he.symm), hacc]
  | some a =>
    have hout : readAccountData env st c addr =
        (Except.ok (some a), setAccountRead env c1 addr a,
          lg1 ++ [StoreAccess.getAccount addr]) := by
      rw [hshape, pointFallback_some hread, prependLog_mk]
    rw [hout]
    refine ⟨rfl, rfl, hlg, ?_, rfl, hsto, hcod, hdel, ?_⟩
    · show lookupA (insertA c1.accounts (env.hash addr) (some a)) (env.hash addr)
        = some (some a)
      rw [lookupA_insert_self]
    · intro h hne
      show lookupA (insertA c1.accounts (env.hash addr) (some a)) h = lookupA c.accounts h
      rw [lookupA_insert, if_neg (fun he => hne he.symm), hacc]

/-- C2: on `trieMiss` for the queried nibble path, exactly one range scan
of the trie-node bucket happens during the whole call (its access list
counts exactly one trie-bucket walk, whatever branch runs afterwards), and
every node the scan delivered is inserted into the Trie Prefix Index — its
key is still bound in the final cache's index.  The deepest-prefix search
is repeated once against the warmed index and dispatches with no second
trie-bucket scan even if it still misses. -/
theorem c2_trie_miss_single_scan (env : Env) (st : Store) (c : StateCache) (addr : Addr)
    (hmiss : getAccount env c addr = none)
    (htm : findDeepestAccountTrie c.trieIndex (decompressNibbles (env.hash addr)) = none)
    (hscan : (walkAccountTrie st.trieBucket c).2 = none) :
    countTrieWalks (readAccountData env st c addr).2.2 = 1 ∧
    ∀ k n, TrieEntry.good k n ∈ st.trieBucket →
      (lookupA (readAccountData env st c addr).2.1.trieIndex k).isSome = true := by
  have hwarm : trieWarmPhase st c (decompressNibbles (env.hash addr)) =
      ((walkAccountTrie st.trieBucket c).1, none, [StoreAccess.walkTrie]) := by
    rw [trieWarmPhase_miss htm, hscan]
  have hshape : readAccountData env st c addr =
      prependLog [StoreAccess.walkTrie]
        (afterSearch env st (walkAccountTrie st.trieBucket c).1 addr (env.hash addr)
          (decompressNibbles (env.hash addr))) := by
    rw [readAccountData_miss st hmiss, triePath_warm hwarm]
  constructor
  · rw [hshape]
    show countTrieWalks (StoreAccess.walkTrie ::
      (afterSearch env st (walkAccountTrie st.trieBucket c).1 addr (env.hash addr)
        (decompressNibbles (env.hash addr))).2.2) = 1
    show countTrieWalks ((afterSearch env st (walkAccountTrie st.trieBucket c).1 addr
      (env.hash addr) (decompressNibbles (env.hash addr))).2.2) + 1 = 1
    rw [afterSearch_no_trieWalk]
  · intro k n hk
    rw [hshape]
    show (lookupA ((afterSearch env st (walkAccountTrie st.trieBucket c).1 addr (env.hash addr)
      (decompressNibbles (env.hash addr))).2.1.trieIndex) k).isSome = true
    refine afterSearch_trieIndex_isSome env st _ addr _ _ k ?_
    exact walkAccountTrie_contains st.trieBucket c hscan k n hk

/-- Witness for C8: with empty buckets the warming scan inserts nothing,
the repeated search still misses, and the call does one point lookup,
caches Absent, and leaves the (empty) index untouched. -/
theorem c8_point_fallback_frame_wit :
    (readAccountData wEnv stEmpty cacheEmpty [1]).1 = Except.ok none ∧
    (readAccountData wEnv stEmpty cacheEmpty [1]).2.2 =
      [StoreAccess.walkTrie] ++ [StoreAccess.getAccount [1]] ∧
    getAccount wEnv (readAccountData wEnv stEmpty cacheEmpty [1]).2.1 [1] = some none ∧
    (readAccountData wEnv stEmpty cacheEmpty [1]).2.1.trieIndex = cacheEmpty.trieIndex := by
  have h := c8_point_fallback_frame wEnv stEmpty cacheEmpty [1] cacheEmpty
    [StoreAccess.walkTrie] none rfl rfl rfl rfl
  exact ⟨h.1, h.2.1, h.2.2.2.1, h.2.2.2.2.1⟩

/-- Witness for C2: a one-node trie bucket is scanned once and its node's
prefix is present in the final Trie Prefix Index. -/
theorem c2_trie_miss_single_scan_wit :
    countTrieWalks (readAccountData wEnv stTrie cacheEmpty [1]).2.2 = 1 ∧
    (lookupA (readAccountData wEnv stTrie cacheEmpty [1]).2.1.trieIndex [0]).isSome = true := by
  have h := c2_trie_miss_single_scan wEnv stTrie cacheEmpty [1] rfl rfl rfl
  exact ⟨h.1, h.2 [0] nodeF (List.mem_cons_self _ _)⟩

theorem readAccountData_absent_marker (env : Env) (st : Store) (c : StateCache) (addr : Addr)
    {c1 : StateCache} {lg : List StoreAccess}
    (h : readAccountData env st c addr = (Except.ok none, c1, lg)) :
    getAccount env c1 addr = some none := by
  cases hga : getAccount env c addr with
  | some a =>
    rw [readAccountData_hit st hga] at h
    simp only [Prod.mk.injEq, Except.ok.injEq] at h
    obtain ⟨ha, hc, -⟩ := h
    rw [← hc, hga, ha]
  | none =>
    rw [readAccountData_miss st hga] at h
    cases hwp : trieWarmPhase st c (decompressNibbles (env.hash addr)) with
    | mk c2 rest =>
      obtain ⟨eopt, lg1⟩ := rest
      cases eopt with
      | some e =>
        rw [triePath_warmErr hwp] at h
        exact Except.noConfusion (congrArg (fun t => t.1) h)
      | none =>
        rw [triePath_warm hwp] at h
        cases hfd : findDeepestAccountTrie c2.trieIndex (decompressNibbles (env.hash addr)) with
        | none =>
          rw [afterSearch_none hfd] at h
          cases hrp : st.readAccountPoint addr with
          | error e =>
            rw [pointFallback_err hrp, prependLog_mk] at h
            exact Except.noConfusion (congrArg (fun t => t.1) h)
          | ok r =>
            cases r with
            | none =>
              rw [pointFallback_none hrp, prependLog_mk] at h
              simp only [Prod.mk.injEq] at h
              obtain ⟨-, hc, -⟩ := h
              rw [← hc]
              show lookupA (insertA c2.accounts (env.hash addr) none) (env.hash addr)
                = some none
              rw [lookupA_insert_self]
            | some a =>
              rw [pointFallback_some hrp, prependLog_mk] at h
              have h2 := congrArg (fun t => t.1) h
              simp only [Except.ok.injEq] at h2
              cases h2
        | some x =>
          obtain ⟨K, d⟩ := x
          rw [afterSearch_some hfd] at h
          by_cases hb : (!d.hasState || d.loaded) = true
          · rw [afterMatch_absent hb, prependLog_mk] at h
            simp only [Prod.mk.injEq] at h
            obtain ⟨-, hc, -⟩ := h
            rw [← hc]
            show lookupA (insertA c2.accounts (env.hash addr) none) (env.hash addr)
              = some none
            rw [lookupA_insert_self]
          · have hb' : (!d.hasState || d.loaded) = false := Bool.eq_false_iff.mpr hb
            cases hw : walkHashedAccounts env (env.hash addr) (accountWalkEntries st K) c2
                false none with
            | mk res cw =>
              cases res with
              | error e =>
                rw [afterMatch_walkErr hb' hw, prependLog_mk] at h
                exact Except.noConfusion (congrArg (fun t => t.1) h)
              | ok fa =>
                obtain ⟨f, a⟩ := fa
                rw [afterMatch_walkOk hb' hw, prependLog_mk] at h
                simp only [Prod.mk.injEq, Except.ok.injEq] at h
                obtain ⟨ha, hc, -⟩ := h
                cases f with
                | false =>
                  rw [← hc]
                  show lookupA (insertA cw.accounts (env.hash addr) none) (env.hash addr)
                    = some none
                  rw [lookupA_insert_self]
                | true =>
                  have hinv := walkHashed_inv env (env.hash addr) (accountWalkEntries st K)
                    c2 false none true a cw hw
                    (fun hff => absurd hff Bool.false_ne_true)
                  rw [← hc, ← ha]
                  show lookupA cw.accounts (env.hash addr) = some a
                  exact hinv rfl

/-- C6: once `ReadAccountData` returns Absent for an address, every later
call for the same address on the resulting cache — against any backing
store whatsoever — returns Absent from the step-1 direct lookup, with an
empty access list (no backing-store access) and no cache change. -/
theorem c6_absent_stable (env : Env) (st st2 : Store) (c : StateCache) (addr : Addr)
    (c1 : StateCache) (lg : List StoreAccess)
    (h : readAccountData env st c addr = (Except.ok none, c1, lg)) :
    readAccountData env st2 c1 addr = (Except.ok none, c1, []) :=
  readAccountData_hit st2 (readAccountData_absent_marker env st c addr h)

/-- Witness for C6: a first call answered Absent from a state-free trie
descriptor; the second call answers Absent from memory. -/
theorem c6_absent_stable_wit :
    readAccountData wEnv stEmpty cacheIdx0 [1] =
      (Except.ok none, setAccountAbsent wEnv cacheIdx0 [1], []) ∧
    readAccountData wEnv stTrie (setAccountAbsent wEnv cacheIdx0 [1]) [1] =
      (Except.ok none, setAccountAbsent wEnv cacheIdx0 [1], []) :=
  ⟨rfl, c6_absent_stable wEnv stEmpty stTrie cacheIdx0 [1] _ _ rfl⟩

/-- C4: if the hashed-account warming scan fails part-way (iterator fault
or decode failure), the error is propagated as the call's result,
`MarkAccountTrieAsLoaded` is never reached — the Trie Prefix Index is
exactly as it was when the scan started, so the matched prefix still
carries `loaded = false` — while every account materialized by the
successfully walked first part of the range is still cached as Present. -/
theorem c4_walk_error_keeps_unloaded (env : Env) (st : Store) (c : StateCache) (addr : Addr)
    (c1 : StateCache) (lg1 : List StoreAccess) (K : Nibbles) (d : TrieDesc) (e : Err)
    (c2 : StateCache) (pre rest : List (Hash × StoreVal)) (f1 : Bool) (a1 : Option Account)
    (cpre : StateCache)
    (hmiss : getAccount env c addr = none)
    (hwarm : trieWarmPhase st c (decompressNibbles (env.hash addr)) = (c1, none, lg1))
    (hfd : findDeepestAccountTrie c1.trieIndex (decompressNibbles (env.hash addr)) = some (K, d))
    (hhs : d.hasState = true) (hld : d.loaded = false)
    (hw : walkHashedAccounts env (env.hash addr) (accountWalkEntries st K) c1 false none =
      (Except.error e, c2))
    (hsplit : accountWalkEntries st K = pre ++ rest)
    (hpre : walkHashedAccounts env (env.hash addr) pre c1 false none =
      (Except.ok (f1, a1), cpre)) :
    readAccountData env st c addr = (Except.error e, c2, lg1 ++ [StoreAccess.walkAccounts K]) ∧
    c2.trieIndex = c1.trieIndex ∧
    findDeepestAccountTrie c2.trieIndex (decompressNibbles (env.hash addr)) = some (K, d) ∧
    (∀ h w, getAccountByHashedAddress cpre h = some w →
      getAccountByHashedAddress c2 h = some w) := by
  have hb' : (!d.hasState || d.loaded) = false := by rw [hhs, hld]; rfl
  have hidx : c2.trieIndex = c1.trieIndex := by
    have hfr := (walkHashed_frame env (env.hash addr) (accountWalkEntries st K) c1 false none).1
    rw [hw] at hfr
    exact hfr
  refine ⟨?_, hidx, ?_, ?_⟩
  · rw [readAccountData_miss st hmiss, triePath_warm hwarm, afterSearch_some hfd,
      afterMatch_walkErr hb' hw, prependLog_mk]
  · rw [hidx]
    exact hfd
  · intro h w hbind
    have happ := walkHashed_append env (env.hash addr) pre rest c1 false none
    rw [← hsplit, hw, hpre] at happ
    have happ2 : (Except.error e, c2) =
        walkHashedAccounts env (env.hash addr) rest cpre f1 a1 := happ
    have hm := walkHashed_mono env (env.hash addr) rest cpre f1 a1 h w hbind
    rw [← happ2] at hm
    exact hm

/-- Witness for C4: the scan decodes one record and then hits an iterator
fault; the error surfaces, the record stays cached Present, and the prefix
descriptor is still the unloaded one. -/
theorem c4_walk_error_keeps_unloaded_wit :
    readAccountData wEnv stCorrupt cacheIdx0S [1] =
      (Except.error Err.storeErr, deprecatedSetAccountRead cacheIdx0S [2] accB,
        [] ++ [StoreAccess.walkAccounts [0]]) ∧
    findDeepestAccountTrie (deprecatedSetAccountRead cacheIdx0S [2] accB).trieIndex
      (decompressNibbles (wEnv.hash [1])) = some ([0], ⟨true, false, false, false⟩) ∧
    getAccountByHashedAddress (deprecatedSetAccountRead cacheIdx0S [2] accB) [2] =
      some (some accB) := by
  have h := c4_walk_error_keeps_unloaded wEnv stCorrupt cacheIdx0S [1] cacheIdx0S []
    [0] ⟨true, false, false, false⟩ Err.storeErr
    (deprecatedSetAccountRead cacheIdx0S [2] accB)
    [([2], StoreVal.good [7])] [([3], StoreVal.corrupt)] false none
    (deprecatedSetAccountRead cacheIdx0S [2] accB)
    rfl rfl rfl rfl rfl rfl rfl rfl
  exact ⟨h.1, h.2.2.1, h.2.2.2 [2] (some accB) rfl⟩

/-- C10: the visit callback never short-circuits a successful scan: when
the warming walk over the prefix-bounded range returns without error,
every entry of the range — including entries positioned after the target
account — ends up known to the Account Cache, and only then is the matched
prefix marked `loaded` in the final cache. -/
theorem c10_scan_visits_whole_range (env : Env) (st : Store) (c : StateCache) (addr : Addr)
    (c1 : StateCache) (lg1 : List StoreAccess) (K : Nibbles) (d : TrieDesc) (f : Bool)
    (a : Option Account) (c2 : StateCache)
    (hmiss : getAccount env c addr = none)
    (hwarm : trieWarmPhase st c (decompressNibbles (env.hash addr)) = (c1, none, lg1))
    (hfd : findDeepestAccountTrie c1.trieIndex (decompressNibbles (env.hash addr)) = some (K, d))
    (hhs : d.hasState = true) (hld : d.loaded = false)
    (hw : walkHashedAccounts env (env.hash addr) (accountWalkEntries st K) c1 false none =
      (Except.ok (f, a), c2)) :
    readAccountData env st c addr =
      (Except.ok a, markAccountTrieAsLoaded (if f then c2 else setAccountAbsent env c2 addr) K,
        lg1 ++ [StoreAccess.walkAccounts K]) ∧
    (∀ e ∈ accountWalkEntries st K,
      (getAccountByHashedAddress (readAccountData env st c addr).2.1 e.1).isSome = true) ∧
    (∃ d2, lookupA (readAccountData env st c addr).2.1.trieIndex K = some d2 ∧
      d2.loaded = true) := by
  have hb' : (!d.hasState || d.loaded) = false := by rw [hhs, hld]; rfl
  have hshape : readAccountData env st c addr =
      (Except.ok a, markAccountTrieAsLoaded (if f then c2 else setAccountAbsent env c2 addr) K,
        lg1 ++ [StoreAccess.walkAccounts K]) := by
    rw [readAccountData_miss st hmiss, triePath_warm hwarm, afterSearch_some hfd,
      afterMatch_walkOk hb' hw, prependLog_mk]
  refine ⟨hshape, ?_, ?_⟩
  · intro e he
    rw [hshape]
    have h2 := walkHashed_all env (env.hash addr) (accountWalkEntries st K) c1 false none
      (f, a) c2 hw e he
    show (lookupA (if f then c2 else setAccountAbsent env c2 addr).accounts e.1).isSome = true
    cases f with
    | true => exact h2
    | false =>
      show (lookupA (insertA c2.accounts (env.hash addr) none) e.1).isSome = true
      exact lookupA_isSome_insert _ _ _ _ h2
  · rw [hshape]
    have hmem := (findDeepest_mem hfd).1
    have hsome := lookupA_isSome_of_mem hmem
    have hidx2 : (if f then c2 else setAccountAbsent env c2 addr).trieIndex = c1.trieIndex := by
      have hfr := (walkHashed_frame env (env.hash addr) (accountWalkEntries st K) c1
        false none).1
      rw [hw] at hfr
      cases f with
      | true => exact hfr
      | false => exact hfr
    show ∃ d2, lookupA (markLoadedIdx
      (if f then c2 else setAccountAbsent env c2 addr).trieIndex K) K = some d2 ∧
      d2.loaded = true
    rw [hidx2, lookupA_markLoadedIdx, if_pos rfl]
    obtain ⟨d0, hd0⟩ := Option.isSome_iff_exists.mp hsome
    rw [hd0]
    exact ⟨{ d0 with loaded := true }, rfl, rfl⟩

/-- Witness for C10: the target is the first bucket entry; the entry after
it is still visited and cached, and the prefix ends marked `loaded`. -/
theorem c10_scan_visits_whole_range_wit :
    readAccountData wEnv stTwo cacheIdx0S [1] =
      (Except.ok (some accA),
        markAccountTrieAsLoaded
          (if true then
            deprecatedSetAccountRead (deprecatedSetAccountRead cacheIdx0S [1] accA) [2] accB
          else setAccountAbsent wEnv
            (deprecatedSetAccountRead (deprecatedSetAccountRead cacheIdx0S [1] accA) [2] accB)
            [1]) [0],
        [] ++ [StoreAccess.walkAccounts [0]]) ∧
    (getAccountByHashedAddress (readAccountData wEnv stTwo cacheIdx0S [1]).2.1 [2]).isSome
      = true ∧
    (∃ d2, lookupA (readAccountData wEnv stTwo cacheIdx0S [1]).2.1.trieIndex [0] = some d2 ∧
      d2.loaded = true) := by
  have h := c10_scan_visits_whole_range wEnv stTwo cacheIdx0S [1] cacheIdx0S []
    [0] ⟨true, false, false, false⟩ true (some accA)
    (deprecatedSetAccountRead (deprecatedSetAccountRead cacheIdx0S [1] accA) [2] accB)
    rfl rfl rfl rfl rfl rfl
  exact ⟨h.1, h.2.1 ([2], StoreVal.good [7]) (by decide), h.2.2⟩

/-- C5: two consecutive `ReadAccountData` calls for different addresses
under the same matched trie prefix cost at most one hashed-account range
scan.  The first call's scan ends with `MarkAccountTrieAsLoaded` on the
matched prefix, so when the second call's deepest-prefix search lands on
that same prefix its descriptor reports `loaded = true` and the call
answers Absent with an empty access list — no scan of any bucket. -/
theorem c5_second_call_no_scan (env : Env) (st st2 : Store) (c : StateCache) (A B : Addr)
    (c1 : StateCache) (lg1 : List StoreAccess) (K : Nibbles) (d d2 : TrieDesc) (f : Bool)
    (a : Option Account) (c2 : StateCache)
    (hmiss : getAccount env c A = none)
    (hwarm : trieWarmPhase st c (decompressNibbles (env.hash A)) = (c1, none, lg1))
    (hfd : findDeepestAccountTrie c1.trieIndex (decompressNibbles (env.hash A)) = some (K, d))
    (hhs : d.hasState = true) (hld : d.loaded = false)
    (hw : walkHashedAccounts env (env.hash A) (accountWalkEntries st K) c1 false none =
      (Except.ok (f, a), c2))
    (hmissB : getAccount env
      (markAccountTrieAsLoaded (if f then c2 else setAccountAbsent env c2 A) K) B = none)
    (hfdB : findDeepestAccountTrie
      (markAccountTrieAsLoaded (if f then c2 else setAccountAbsent env c2 A) K).trieIndex
      (decompressNibbles (env.hash B)) = some (K, d2)) :
    readAccountData env st c A =
      (Except.ok a, markAccountTrieAsLoaded (if f then c2 else setAccountAbsent env c2 A) K,
        lg1 ++ [StoreAccess.walkAccounts K]) ∧
    countAccountWalks (lg1 ++ [StoreAccess.walkAccounts K]) = 1 ∧
    d2.loaded = true ∧
    readAccountData env st2
        (markAccountTrieAsLoaded (if f then c2 else setAccountAbsent env c2 A) K) B =
      (Except.ok none,
        setAccountAbsent env
          (markAccountTrieAsLoaded (if f then c2 else setAccountAbsent env c2 A) K) B,
        []) := by
  have hb' : (!d.hasState || d.loaded) = false := by rw [hhs, hld]; rfl
  have hd2 : d2.loaded = true := by
    have hmem := (findDeepest_mem hfdB).1
    exact markLoadedIdx_loaded hmem
  refine ⟨?_, ?_, hd2, ?_⟩
  · rw [readAccountData_miss st hmiss, triePath_warm hwarm, afterSearch_some hfd,
      afterMatch_walkOk hb' hw, prependLog_mk]
  · have hlg := trieWarmPhase_log st c (decompressNibbles (env.hash A))
    rw [hwarm] at hlg
    rcases hlg with h1 | h1
    · have h2 : lg1 = [] := h1
      rw [h2]
      rfl
    · have h2 : lg1 = [StoreAccess.walkTrie] := h1
      rw [h2]
      rfl
  · have hb2 : (!d2.hasState || d2.loaded) = true := by rw [hd2]; simp
    rw [readAccountData_miss st2 hmissB, triePath_warm (trieWarmPhase_hit hfdB),
      afterSearch_some hfdB, afterMatch_absent hb2]
    rfl

/-- Witness for C5: the first call warms and loads prefix `[0]`; the
second call, for a different address under `[0]` absent from the store,
answers Absent with no access at all. -/
theorem c5_second_call_no_scan_wit :
    d25.loaded = true ∧
    readAccountData wEnv stEmpty
        (markAccountTrieAsLoaded
          (if true then
            deprecatedSetAccountRead (deprecatedSetAccountRead cacheIdx0S [1] accA) [2] accB
          else setAccountAbsent wEnv
            (deprecatedSetAccountRead (deprecatedSetAccountRead cacheIdx0S [1] accA) [2] accB)
            [1]) [0]) [3] =
      (Except.ok none,
        setAccountAbsent wEnv
          (markAccountTrieAsLoaded
            (if true then
              deprecatedSetAccountRead (deprecatedSetAccountRead cacheIdx0S [1] accA) [2] accB
            else setAccountAbsent wEnv
              (deprecatedSetAccountRead (deprecatedSetAccountRead cacheIdx0S [1] accA) [2] accB)
              [1]) [0]) [3],
        []) := by
  have h := c5_second_call_no_scan wEnv stTwo stEmpty cacheIdx0S [1] [3] cacheIdx0S []
    [0] ⟨true, false, false, false⟩ d25 true (some accA)
    (deprecatedSetAccountRead (deprecatedSetAccountRead cacheIdx0S [1] accA) [2] accB)
    rfl rfl rfl rfl rfl rfl rfl rfl
  exact ⟨h.2.2.1, h.2.2.2⟩

/-- C1: an account record materialized into the cache by a completed
warming scan (the scan's first entry for hashed address `hash B`, not
previously cached, decoded successfully) is afterwards served from memory:
a later `ReadAccountData` for `B` on the resulting cache — against any
backing store — answers that account as Present with an empty access list.
It never answers Absent for an account the scan loaded. -/
theorem c1_warmed_account_served (env : Env) (st st2 : Store) (c : StateCache) (A B : Addr)
    (c1 : StateCache) (lg1 : List StoreAccess) (K : Nibbles) (d : TrieDesc) (f : Bool)
    (a : Option Account) (c2 : StateCache) (pre post : List (Hash × StoreVal)) (vb : Bytes)
    (accB1 : Account)
    (hmiss : getAccount env c A = none)
    (hwarm : trieWarmPhase st c (decompressNibbles (env.hash A)) = (c1, none, lg1))
    (hfd : findDeepestAccountTrie c1.trieIndex (decompressNibbles (env.hash A)) = some (K, d))
    (hhs : d.hasState = true) (hld : d.loaded = false)
    (hw : walkHashedAccounts env (env.hash A) (accountWalkEntries st K) c1 false none =
      (Except.ok (f, a), c2))
    (hsplit : accountWalkEntries st K = pre ++ (env.hash B, StoreVal.good vb) :: post)
    (hpreKeys : ∀ e2 ∈ pre, e2.1 ≠ env.hash B)
    (hfresh : getAccountByHashedAddress c1 (env.hash B) = none)
    (hdec : env.decodeAccount vb = some accB1)
    (hAB : env.hash B ≠ env.hash A) :
    readAccountData env st c A =
      (Except.ok a, markAccountTrieAsLoaded (if f then c2 else setAccountAbsent env c2 A) K,
        lg1 ++ [StoreAccess.walkAccounts K]) ∧
    getAccount env (markAccountTrieAsLoaded (if f then c2 else setAccountAbsent env c2 A) K) B
      = some (some accB1) ∧
    readAccountData env st2
        (markAccountTrieAsLoaded (if f then c2 else setAccountAbsent env c2 A) K) B =
      (Except.ok (some accB1),
        markAccountTrieAsLoaded (if f then c2 else setAccountAbsent env c2 A) K, []) := by
  have hb' : (!d.hasState || d.loaded) = false := by rw [hhs, hld]; rfl
  have hc2 : getAccountByHashedAddress c2 (env.hash B) = some (some accB1) := by
    have happ := walkHashed_append env (env.hash A) pre
      ((env.hash B, StoreVal.good vb) :: post) c1 false none
    rw [← hsplit, hw] at happ
    cases hpre : walkHashedAccounts env (env.hash A) pre c1 false none with
    | mk res cpre =>
      rw [hpre] at happ
      cases res with
      | error e =>
        have hcontra : (Except.ok (f, a) : Except Err (Bool × Option Account)) =
            Except.error e := congrArg (fun t => t.1) happ
        exact Except.noConfusion hcontra
      | ok fa =>
        obtain ⟨f0, a0⟩ := fa
        have happ2 : (Except.ok (f, a), c2) =
            walkHashedAccounts env (env.hash A) ((env.hash B, StoreVal.good vb) :: post)
              cpre f0 a0 := happ
        have hkeep : getAccountByHashedAddress cpre (env.hash B) = none := by
          have ho := walkHashed_other env (env.hash A) pre c1 false none (env.hash B) hpreKeys
          rw [hpre] at ho
          have ho2 : getAccountByHashedAddress cpre (env.hash B) =
              getAccountByHashedAddress c1 (env.hash B) := ho
          rw [ho2, hfresh]
        rw [walkHashed_good_fresh env (env.hash A) post f0 a0 hkeep hdec] at happ2
        have hbind : getAccountByHashedAddress
            (deprecatedSetAccountRead cpre (env.hash B) accB1) (env.hash B)
            = some (some accB1) := by
          show lookupA (insertA cpre.accounts (env.hash B) (some accB1)) (env.hash B)
            = some (some accB1)
          rw [lookupA_insert_self]
        have hm := walkHashed_mono env (env.hash A) post
          (deprecatedSetAccountRead cpre (env.hash B) accB1)
          (if env.hash B = env.hash A then true else f0)
          (if env.hash B = env.hash A then some accB1 else a0)
          (env.hash B) (some accB1) hbind
        rw [← happ2] at hm
        exact hm
  have hfin : getAccount env (markAccountTrieAsLoaded
      (if f then c2 else setAccountAbsent env c2 A) K) B = some (some accB1) := by
    show lookupA (if f then c2 else setAccountAbsent env c2 A).accounts (env.hash B)
      = some (some accB1)
    cases f with
    | true => exact hc2
    | false =>
      show lookupA (insertA c2.accounts (env.hash A) none) (env.hash B) = some (some accB1)
      rw [lookupA_insert, if_neg (fun he => hAB he.symm)]
      exact hc2
  refine ⟨?_, hfin, readAccountData_hit st2 hfin⟩
  rw [readAccountData_miss st hmiss, triePath_warm hwarm, afterSearch_some hfd,
    afterMatch_walkOk hb' hw, prependLog_mk]

/-- Witness for C1: the scan triggered by reading `[1]` also materializes
the record for `[2]`; the follow-up read of `[2]` is Present from memory
with no store access. -/
theorem c1_warmed_account_served_wit :
    getAccount wEnv
      (markAccountTrieAsLoaded
        (if true then
          deprecatedSetAccountRead (deprecatedSetAccountRead cacheIdx0S [1] accA) [2] accB
        else setAccountAbsent wEnv
          (deprecatedSetAccountRead (deprecatedSetAccountRead cacheIdx0S [1] accA) [2] accB)
          [1]) [0]) [2] = some (some accB) ∧
    readAccountData wEnv stEmpty
        (markAccountTrieAsLoaded
          (if true then
            deprecatedSetAccountRead (deprecatedSetAccountRead cacheIdx0S [1] accA) [2] accB
          else setAccountAbsent wEnv
            (deprecatedSetAccountRead (deprecatedSetAccountRead cacheIdx0S [1] accA) [2] accB)
            [1]) [0]) [2] =
      (Except.ok (some accB),
        markAccountTrieAsLoaded
          (if true then
            deprecatedSetAccountRead (deprecatedSetAccountRead cacheIdx0S [1] accA) [2] accB
          else setAccountAbsent wEnv
            (deprecatedSetAccountRead (deprecatedSetAccountRead cacheIdx0S [1] accA) [2] accB)
            [1]) [0], []) := by
  have h := c1_warmed_account_served wEnv stTwo stEmpty cacheIdx0S [1] [2] cacheIdx0S []
    [0] ⟨true, false, false, false⟩ true (some accA)
    (deprecatedSetAccountRead (deprecatedSetAccountRead cacheIdx0S [1] accA) [2] accB)
    [([1], StoreVal.good [5])] [] [7] accB
    rfl rfl rfl rfl rfl rfl rfl (by decide) rfl rfl (by decide)
  exact ⟨h.2.1, h.2.2⟩
